import Mathlib

/-!
Verification of the password-manager ingestion pipeline and envelope
encryption module against its natural-language specification.

Strings are embedded as lists of characters (`Str`); the JavaScript string
operations used by the source (`split`, `join`, `trim`, `substring`,
`indexOf`, `lastIndexOf`, truthiness of strings) are modelled explicitly.
External primitives (the AES-GCM cipher / PBKDF2 of node:crypto, the
JSON parser, the text-generation model, the record store) are modelled as
parameters, with their documented contracts as hypotheses where a theorem
needs them.
-/

set_option maxHeartbeats 1000000

abbrev Str := List Char

/-- JavaScript `String.prototype.split(sep)` for a one-character separator:
`"".split(sep)` is `[""]`, a trailing separator yields a trailing empty piece. -/
def splitOnChar (sep : Char) : Str → List Str
  | [] => [[]]
  | c :: rest =>
    if c = sep then [] :: splitOnChar sep rest
    else
      match splitOnChar sep rest with
      | [] => [[c]]
      | h :: t => (c :: h) :: t

/-- JavaScript `Array.prototype.join(sep)` for lists of strings with a
one-character separator. -/
def joinWith (sep : Char) : List Str → Str
  | [] => []
  | [x] => x
  | x :: y :: t => x ++ sep :: joinWith sep (y :: t)

/-- The whitespace characters removed by JavaScript `String.prototype.trim`
(ASCII whitespace, NBSP, BOM, and the Unicode line separators; the remaining
Unicode space separators are irrelevant to this code base). -/
def isJsWhitespace (c : Char) : Bool :=
  c = ' ' || c = '\t' || c = '\n' || c = '\r' ||
  c = (Char.ofNat 11) || c = (Char.ofNat 12) ||
  c = (Char.ofNat 160) || c = (Char.ofNat 65279) ||
  c = (Char.ofNat 8232) || c = (Char.ofNat 8233)

/-- JavaScript `String.prototype.trim`. -/
def jsTrim (s : Str) : Str :=
  (s.dropWhile isJsWhitespace).reverse.dropWhile isJsWhitespace |>.reverse

/-- Decimal rendering of a number, as JavaScript template literals do for
the small non-negative integers interpolated by this code. -/
def natStr (n : Nat) : Str := (Nat.repr n).data

/-- `splitTextIntoChunks`' accumulation loop (src/unnamed/part_000, lines
58-79): lines are pushed onto the current chunk; when adding the next line
would push the running length (each line counted with a trailing newline)
past the bound and the current chunk is non-empty, the chunk is closed. -/
def chunkLoop (m : Nat) : List Str → List Str → Nat → List Str
  | [], cur, _ => if cur = [] then [] else [joinWith '\n' cur]
  | line :: rest, cur, curLen =>
    if curLen + line.length + 1 > m ∧ cur ≠ [] then
      joinWith '\n' cur :: chunkLoop m rest [line] (line.length + 1)
    else
      chunkLoop m rest (cur ++ [line]) (curLen + line.length + 1)

/-- `splitTextIntoChunks` (src/unnamed/part_000, lines 42-83): split the
text on newlines and group consecutive lines into chunks bounded by
`maxChunkSize`. -/
def splitTextIntoChunks (text : Str) (maxChunkSize : Nat := 6000) : List Str :=
  chunkLoop maxChunkSize (splitOnChar '\n' text) [] 0

/-- A byte list: every entry fits in one byte. -/
abbrev ValidBytes (bs : List Nat) : Prop := ∀ b ∈ bs, b < 256

/-- Lowercase hex digit for a value below 16 (as produced by
`Buffer.prototype.toString("hex")`). -/
def hexDigitChar (n : Nat) : Char := "0123456789abcdef".data.getD n '0'

/-- Two-character lowercase hex rendering of one byte. -/
def byteToHex (b : Nat) : Str := [hexDigitChar (b / 16), hexDigitChar (b % 16)]

/-- `Buffer.prototype.toString("hex")`: concatenated two-digit renderings. -/
def hexEncode (bs : List Nat) : Str := (bs.map byteToHex).flatten

/-- Value of one hex digit; `none` for a non-hex character. Uppercase digits
are accepted, as `Buffer.from(s, "hex")` accepts them. -/
def hexVal (c : Char) : Option Nat :=
  if c = '0' then some 0 else if c = '1' then some 1
  else if c = '2' then some 2 else if c = '3' then some 3
  else if c = '4' then some 4 else if c = '5' then some 5
  else if c = '6' then some 6 else if c = '7' then some 7
  else if c = '8' then some 8 else if c = '9' then some 9
  else if c = 'a' then some 10 else if c = 'b' then some 11
  else if c = 'c' then some 12 else if c = 'd' then some 13
  else if c = 'e' then some 14 else if c = 'f' then some 15
  else if c = 'A' then some 10 else if c = 'B' then some 11
  else if c = 'C' then some 12 else if c = 'D' then some 13
  else if c = 'E' then some 14 else if c = 'F' then some 15
  else none

/-- `Buffer.from(s, "hex")`: decode hex pairs, stopping at the first invalid
pair or odd-length tail (Node's behavior — it never throws). -/
def hexDecode : Str → List Nat
  | c1 :: c2 :: rest =>
    match hexVal c1, hexVal c2 with
    | some a, some b => (a * 16 + b) :: hexDecode rest
    | _, _ => []
  | _ => []

/-- The cryptographic primitives of node:crypto consumed by the envelope
module: PBKDF2 key derivation (which calls back with an error or a key) and
the AES-256-GCM cipher, which produces a ciphertext and an authentication
tag, and whose decryption direction returns `none` when the tag does not
verify or the key/iv are rejected (the code paths that throw and are caught
by `decrypt`). -/
structure CryptoPrim where
  kdf : Str → List Nat → Except Str (List Nat)
  aeadEnc : List Nat → List Nat → Str → List Nat × List Nat
  aeadDec : List Nat → List Nat → List Nat → List Nat → Option Str

/-- The message thrown when the MASTER_PASSWORD environment variable is
absent. -/
def masterMissingMsg : Str := "Master password not set in environment.".data

/-- `encrypt` (src/unnamed/part_000, lines 548-568): derive a key from the
master password in the environment and a fresh salt, AES-256-GCM-encrypt
with a fresh IV, and return the token `saltHex:ivHex:cipherHex:tagHex`.
The fresh random salt and IV produced by `randomBytes(16)` are passed in as
arguments. -/
def encrypt (prim : CryptoPrim) (env : Option Str) (salt iv : List Nat)
    (plainTextPassword : Str) : Except Str Str :=
  match env with
  | none => .error masterMissingMsg
  | some mp =>
    match prim.kdf mp salt with
    | .error e => .error e
    | .ok encryptionKey =>
      let enc := prim.aeadEnc encryptionKey iv plainTextPassword
      .ok (hexEncode salt ++ ':' :: (hexEncode iv ++ ':' ::
           (hexEncode enc.1 ++ ':' :: hexEncode enc.2)))

/-- `decrypt` (src/unnamed/part_000, lines 577-612): split the token on
colons, require exactly 4 fields, re-derive the key from the embedded salt,
and AES-256-GCM-decrypt verifying the tag; every failure inside the try
block (KDF callback error, tag mismatch, rejected key/iv) yields `none`
rather than an exception. -/
def decrypt (prim : CryptoPrim) (env : Option Str) (encryptedString : Str) :
    Except Str (Option Str) :=
  match env with
  | none => .error masterMissingMsg
  | some mp =>
    let parts := splitOnChar ':' encryptedString
    if parts.length ≠ 4 then .ok none
    else
      let salt := hexDecode (parts.getD 0 [])
      let iv := hexDecode (parts.getD 1 [])
      let encryptedText := parts.getD 2 []
      let authTag := hexDecode (parts.getD 3 [])
      match prim.kdf mp salt with
      | .error _ => .ok none
      | .ok encryptionKey =>
        .ok (prim.aeadDec encryptionKey iv (hexDecode encryptedText) authTag)

/-- The documented contract of AES-256-GCM: decrypting an authentic
ciphertext/tag pair under the same key and IV returns the plaintext, and
the cipher emits byte-valued output. -/
structure GoodPrim (prim : CryptoPrim) : Prop where
  aead_roundtrip : ∀ k iv p,
    prim.aeadDec k iv (prim.aeadEnc k iv p).1 (prim.aeadEnc k iv p).2 = some p
  aead_valid : ∀ k iv p,
    ValidBytes (prim.aeadEnc k iv p).1 ∧ ValidBytes (prim.aeadEnc k iv p).2

/-- Three-byte big-endian rendering of one character's code point. -/
def charEncBytes (c : Char) : List Nat :=
  [c.toNat / 65536, c.toNat / 256 % 256, c.toNat % 256]

/-- Byte encoding of a string, three bytes per character. -/
def strEncBytes (s : Str) : List Nat := (s.map charEncBytes).flatten

/-- Inverse of `strEncBytes`. -/
def strDecBytes : List Nat → Str
  | b0 :: b1 :: b2 :: rest => Char.ofNat (b0 * 65536 + b1 * 256 + b2) :: strDecBytes rest
  | _ => []

/-- Toy authentication tag: a keyed digest reduced to bytes. -/
def toyTag (k iv ct : List Nat) : List Nat := (k ++ iv ++ ct).map (· % 256)

/-- A concrete stand-in for the node:crypto primitives, used to instantiate
theorems at executable inputs. -/
def toyPrim : CryptoPrim where
  kdf := fun mp salt => .ok (strEncBytes mp ++ salt)
  aeadEnc := fun k iv p => (strEncBytes p, toyTag k iv (strEncBytes p))
  aeadDec := fun k iv ct tag =>
    if tag = toyTag k iv ct then some (strDecBytes ct) else none
/-- The `ImportedPassword` record shape (src/unnamed/part_000, lines 12-19).
Optional fields are `none` when absent/undefined. -/
structure ImportedPassword where
  name : Str
  username : Option Str
  email : Option Str
  password : Str
  website : Option Str
  description : Option Str
deriving DecidableEq, Inhabited

/-- JavaScript `a || d` for a possibly-absent string field `a` and a string
default `d`: absent and empty strings are falsy. -/
def jsOr (o : Option Str) (d : Str) : Str :=
  match o with
  | some s => if s = [] then d else s
  | none => d

/-- JavaScript `a || undefined` for a possibly-absent string field. -/
def jsOrUndef (o : Option Str) : Option Str :=
  match o with
  | some s => if s = [] then none else some s
  | none => none

/-- A parsed JSON object candidate as consumed by the validation step;
fields are string-valued or absent (string fields are the only shapes this
pipeline's claims concern). -/
structure CandidateObj where
  name : Option Str
  username : Option Str
  email : Option Str
  password : Option Str
  website : Option Str
  description : Option Str
deriving DecidableEq

/-- An element of a parsed JSON array: an object, or anything else
(primitives, null — dropped by the `typeof item === "object"` filter). -/
inductive JsonItem where
  | obj (o : CandidateObj)
  | nonObj
deriving DecidableEq

/-- The result of `JSON.parse` on the extracted slice: an array or some
non-array value. -/
inductive JsonVal where
  | arr (items : List JsonItem)
  | nonArr
deriving DecidableEq

/-- The per-item mapping of the AI validation step (lines 225-232): every
field is defaulted through JS `||`, the name to `"Unknown Service"`, the
password to the empty string. -/
def toImported (item : CandidateObj) : ImportedPassword where
  name := jsOr item.name "Unknown Service".data
  username := jsOrUndef item.username
  email := jsOrUndef item.email
  password := jsOr item.password []
  website := jsOrUndef item.website
  description := jsOrUndef item.description

/-- The validation step of `processContentWithAI` (lines 222-233): keep
object items, map them through `toImported`, then keep records whose
password and name are truthy. -/
def validateAIItems (parsedData : List JsonItem) : List ImportedPassword :=
  ((parsedData.filterMap fun item =>
      match item with
      | .obj o => some o
      | .nonObj => none).map toImported).filter
    fun item => !item.password.isEmpty && !item.name.isEmpty

inductive ProgressStatus where
  | processing
  | complete
  | error
deriving DecidableEq

/-- The `ImportProgress` event shape (src/unnamed/part_000, lines 29-36). -/
structure ImportProgress where
  currentChunk : Nat
  totalChunks : Nat
  currentChunkSize : Nat
  totalProcessed : Nat
  status : ProgressStatus
  message : Str
deriving DecidableEq

def startingMsg (n : Nat) : Str :=
  "Starting AI processing of ".data ++ natStr n ++ " chunks...".data

def processingMsg (i n size : Nat) : Str :=
  "Processing chunk ".data ++ natStr (i + 1) ++ "/".data ++ natStr n ++
  " (".data ++ natStr size ++ " chars)...".data

def completedChunkMsg (i n total : Nat) : Str :=
  "Completed chunk ".data ++ natStr (i + 1) ++ "/".data ++ natStr n ++
  ". Total passwords found: ".data ++ natStr total

def aiCompleteMsg (total : Nat) : Str :=
  "AI processing complete. Total passwords extracted: ".data ++ natStr total

def aiFailedMsg (e : Str) : Str := "AI processing failed: ".data ++ e

def aiThrownMsg (e : Str) : Str := "Failed to process content with AI: ".data ++ e

/-- JavaScript `String.prototype.indexOf` for one character, as an Option
(`none` for `-1`). -/
def jsIndexOfChar (c : Char) (s : Str) : Option Nat := s.findIdx? (· = c)

/-- JavaScript `String.prototype.lastIndexOf` for one character. -/
def jsLastIndexOfChar (c : Char) (s : Str) : Option Nat :=
  match s.reverse.findIdx? (· = c) with
  | none => none
  | some j => some (s.length - 1 - j)

/-- JavaScript `String.prototype.substring` (swaps its arguments when
`start > end`). -/
def jsSubstring (s : Str) (a b : Nat) : Str :=
  (s.take (max a b)).drop (min a b)

/-- The JSON-extraction step for one chunk's model response (lines
189-216): locate the first `[` and the last `]`, parse the slice, require
an array; `none` means the chunk is skipped (`continue`). -/
def extractFromResponse (parseJson : Str → Option JsonVal) (aiResponse : Str) :
    Option (List ImportedPassword) :=
  match jsIndexOfChar '[' aiResponse, jsLastIndexOfChar ']' aiResponse with
  | some jsonStart, some lastBracket =>
    let jsonString := jsSubstring aiResponse jsonStart (lastBracket + 1)
    match parseJson jsonString with
    | none => none
    | some .nonArr => none
    | some (.arr parsedData) => some (validateAIItems parsedData)
  | _, _ => none

/-- The chunk loop of `processContentWithAI` (lines 114-255). The external
model is the `oracle` (chunk index and text to thrown-error-or-response);
an empty chunk is skipped as falsy (`if (!chunk) continue`); a per-chunk
progress event precedes the model call; a thrown model call aborts the
loop; a skipped parse just omits the post-chunk event. -/
def processLoop (parseJson : Str → Option JsonVal)
    (oracle : Nat → Str → Except Str Str) (totalChunks : Nat) :
    List Str → Nat → List ImportedPassword →
    List ImportProgress × Except Str (List ImportedPassword)
  | [], _, allPasswords => ([], .ok allPasswords)
  | chunk :: rest, i, allPasswords =>
    if chunk = [] then processLoop parseJson oracle totalChunks rest (i + 1) allPasswords
    else
      let pre : ImportProgress :=
        { currentChunk := i + 1, totalChunks := totalChunks,
          currentChunkSize := chunk.length, totalProcessed := allPasswords.length,
          status := .processing, message := processingMsg i totalChunks chunk.length }
      match oracle i chunk with
      | .error e => ([pre], .error e)
      | .ok response =>
        match extractFromResponse parseJson (jsTrim response) with
        | none =>
          let r := processLoop parseJson oracle totalChunks rest (i + 1) allPasswords
          (pre :: r.1, r.2)
        | some validatedPasswords =>
          let acc := allPasswords ++ validatedPasswords
          let post : ImportProgress :=
            { currentChunk := i + 1, totalChunks := totalChunks,
              currentChunkSize := chunk.length, totalProcessed := acc.length,
              status := .processing, message := completedChunkMsg i totalChunks acc.length }
          let r := processLoop parseJson oracle totalChunks rest (i + 1) acc
          (pre :: post :: r.1, r.2)

/-- `processContentWithAI` (src/unnamed/part_000, lines 88-292): split into
chunks of at most 6000 characters, run the chunk loop, and wrap up with a
completion event, or an error event plus a rethrown
`Failed to process content with AI` error. Returns the emitted progress
events alongside the outcome. -/
def processContentWithAI (parseJson : Str → Option JsonVal)
    (oracle : Nat → Str → Except Str Str) (content : Str) :
    List ImportProgress × Except Str (List ImportedPassword) :=
  let chunks := splitTextIntoChunks content 6000
  let initial : ImportProgress :=
    { currentChunk := 0, totalChunks := chunks.length, currentChunkSize := 0,
      totalProcessed := 0, status := .processing,
      message := startingMsg chunks.length }
  let r := processLoop parseJson oracle chunks.length chunks 0 []
  match r.2 with
  | .ok allPasswords =>
    (initial :: r.1 ++
      [{ currentChunk := chunks.length, totalChunks := chunks.length,
         currentChunkSize := 0, totalProcessed := allPasswords.length,
         status := .complete, message := aiCompleteMsg allPasswords.length }],
     .ok allPasswords)
  | .error e =>
    (initial :: r.1 ++
      [{ currentChunk := 0, totalChunks := 0, currentChunkSize := 0,
         totalProcessed := 0, status := .error, message := aiFailedMsg e }],
     .error (aiThrownMsg e))

/-- The records one chunk contributes when the model call does not throw:
zero when the chunk is empty, the model call fails, or the parse is
skipped. -/
def chunkYield (parseJson : Str → Option JsonVal)
    (oracle : Nat → Str → Except Str Str) (i : Nat) (chunk : Str) :
    List ImportedPassword :=
  if chunk = [] then []
  else
    match oracle i chunk with
    | .error _ => []
    | .ok response => (extractFromResponse parseJson (jsTrim response)).getD []

/-- Concatenated per-chunk yields starting at chunk index `i`. -/
def chunksYield (parseJson : Str → Option JsonVal)
    (oracle : Nat → Str → Except Str Str) :
    List Str → Nat → List ImportedPassword
  | [], _ => []
  | c :: rest, i =>
    chunkYield parseJson oracle i c ++ chunksYield parseJson oracle rest (i + 1)

/-- The `ImportResult` shape (src/unnamed/part_000, lines 21-27). -/
structure ImportResult where
  passwords : List ImportedPassword
  totalProcessed : Nat
  successCount : Nat
  errorCount : Nat
  errors : List Str
deriving DecidableEq

/-- `importPasswords` (src/unnamed/part_000, lines 409-489). The file type
arrives as a runtime string. The CSV branch tries the AI path and swallows
its failure (the direct-CSV fallback call is commented out); text, image
and pdf propagate an AI failure to the outer catch; any other type throws
`Unsupported file type`, also caught by the outer catch, which records one
error. Returns the result alongside the forwarded progress events. -/
def importPasswords (parseJson : Str → Option JsonVal)
    (oracle : Nat → Str → Except Str Str) (fileContent : Str)
    (fileType : Str) : ImportResult × List ImportProgress :=
  if fileType = "csv".data then
    let r := processContentWithAI parseJson oracle fileContent
    match r.2 with
    | .ok passwords =>
      ({ passwords := passwords, totalProcessed := passwords.length,
         successCount := passwords.length, errorCount := 0, errors := [] }, r.1)
    | .error _ =>
      ({ passwords := [], totalProcessed := 0, successCount := 0,
         errorCount := 0, errors := [] }, r.1)
  else if fileType = "text".data ∨ fileType = "image".data ∨ fileType = "pdf".data then
    let r := processContentWithAI parseJson oracle fileContent
    match r.2 with
    | .ok passwords =>
      ({ passwords := passwords, totalProcessed := passwords.length,
         successCount := passwords.length, errorCount := 0, errors := [] }, r.1)
    | .error e =>
      ({ passwords := [], totalProcessed := 0, successCount := 0,
         errorCount := 1, errors := [e] }, r.1)
  else
    ({ passwords := [], totalProcessed := 0, successCount := 0,
       errorCount := 1,
       errors := ["Unsupported file type: ".data ++ fileType] }, [])
/-- `replace(/"/g, "")`: remove every double quote. -/
def stripQuotes (s : Str) : Str := s.filter (· != '"')

/-- Case-insensitive header mapping as JavaScript `toLowerCase` on the
ASCII header names this code compares against. -/
def toLowerStr (s : Str) : Str := s.map Char.toLower

/-- The character-by-character quoted-CSV field splitter of
`processCSVContent` (lines 332-347): quotes toggle the in-quotes state and
are not emitted; an unquoted comma closes the current (trimmed) field. The
accumulator holds the current field reversed. -/
def parseValuesGo : Str → Str → Bool → List Str
  | [], current, _ => [jsTrim current.reverse]
  | c :: rest, current, inQuotes =>
    if c = '"' then parseValuesGo rest current (!inQuotes)
    else if c = ',' ∧ inQuotes = false then
      jsTrim current.reverse :: parseValuesGo rest [] inQuotes
    else parseValuesGo rest (c :: current) inQuotes

def parseValues (line : Str) : List Str := parseValuesGo line [] false

/-- JavaScript object property assignment on a string key: overwrite an
existing key, otherwise append. -/
def rowSet (k v : Str) (row : List (Str × Str)) : List (Str × Str) :=
  if row.any (fun e => e.1 == k) then
    row.map (fun e => if e.1 = k then (k, v) else e)
  else row ++ [(k, v)]

/-- JavaScript property read: the assigned value, or absent. -/
def rowGet (row : List (Str × Str)) (k : Str) : Option Str :=
  (row.find? (fun e => e.1 == k)).map (·.2)

/-- The header-to-value mapping of `processCSVContent` (lines 352-357):
assign `row[header.toLowerCase()]` only when `values[index]` is truthy,
stripping quotes from the value. -/
def buildRow (headers : List Str) (values : List Str) : List (Str × Str) :=
  headers.enum.foldl
    (fun row hi =>
      if values.getD hi.1 [] = [] then row
      else rowSet (toLowerStr hi.2) (stripQuotes (values.getD hi.1 [])) row)
    []

/-- The first truthy value in a JavaScript `a || b || ...` chain of
possibly-absent strings. -/
def firstTruthy : List (Option Str) → Option Str
  | [] => none
  | o :: rest =>
    match o with
    | some s => if s = [] then firstTruthy rest else some s
    | none => firstTruthy rest

/-- Row-to-record mapping with header synonyms and defaults
(`processCSVContent`, lines 362-369). -/
def mkCsvPassword (row : List (Str × Str)) : ImportedPassword where
  name := jsOr (firstTruthy [rowGet row "name".data, rowGet row "service".data,
    rowGet row "title".data]) "Unknown Service".data
  username := firstTruthy [rowGet row "username".data, rowGet row "login".data,
    rowGet row "user".data]
  email := firstTruthy [rowGet row "email".data]
  password := jsOr (firstTruthy [rowGet row "password".data,
    rowGet row "pass".data]) []
  website := firstTruthy [rowGet row "website".data, rowGet row "url".data,
    rowGet row "site".data]
  description := firstTruthy [rowGet row "description".data,
    rowGet row "note".data, rowGet row "notes".data]

/-- The data-row loop of `processCSVContent` (lines 318-390): skip blank
lines, parse and map each row, keep rows whose password and name are
truthy. -/
def csvRows (headers : List Str) : List Str → List ImportedPassword
  | [] => []
  | line :: rest =>
    if jsTrim line = [] then csvRows headers rest
    else
      let password := mkCsvPassword (buildRow headers (parseValues line))
      if !password.password.isEmpty && !password.name.isEmpty then
        password :: csvRows headers rest
      else csvRows headers rest

/-- `processCSVContent` (src/unnamed/part_000, lines 297-404): trim, split
into lines, require a header row plus at least one data row (else throw,
wrapped by the catch as `Failed to process CSV`), map header names
case-insensitively (trimmed, quotes stripped), and keep valid rows. -/
def processCSVContent (csvContent : Str) : Except Str (List ImportedPassword) :=
  let lines := splitOnChar '\n' (jsTrim csvContent)
  if lines.length = 0 then
    .error "Failed to process CSV: CSV is empty".data
  else if lines.length < 2 then
    .error "Failed to process CSV: CSV must have at least a header row and one data row".data
  else
    let headers := (splitOnChar ',' (lines.getD 0 [])).map
      (fun h => stripQuotes (jsTrim h))
    .ok (csvRows headers (lines.drop 1))

/-- A `saving_progress` event of the SSE import route
(src/unnamed/part_010, lines 280-289). -/
structure SaveEvent where
  current : Nat
  total : Nat
  message : Str
deriving DecidableEq

def savingMsg (i total : Nat) : Str :=
  "Saving password ".data ++ natStr i ++ "/".data ++ natStr total

def saveErrString (name e : Str) : Str :=
  "Failed to save password \"".data ++ name ++ "\": ".data ++ e

/-- One record's save attempt in the SSE import loop (src/unnamed/part_010,
lines 262-275): encrypt the password, then create the record in the store;
either step's exception is caught by the surrounding per-record try. The
store is modelled as an environment function of the attempt index and
record. -/
def saveAttempt (prim : CryptoPrim) (env : Option Str)
    (rnd : Nat → List Nat × List Nat)
    (store : Nat → ImportedPassword → Str → Except Str Unit)
    (i : Nat) (p : ImportedPassword) : Except Str Unit :=
  match encrypt prim env (rnd i).1 (rnd i).2 p.password with
  | .error e => .error e
  | .ok encryptedPassword => store i p encryptedPassword

/-- The save loop of `handleSSEImport` (src/unnamed/part_010, lines
259-301): on success push the saved record and emit a `saving_progress`
event; on failure push an error string naming the record — and emit no
event. -/
def saveLoop (att : Nat → ImportedPassword → Except Str Unit) (total : Nat) :
    List ImportedPassword → Nat →
    List ImportedPassword × List Str × List SaveEvent
  | [], _ => ([], [], [])
  | p :: rest, i =>
    let r := saveLoop att total rest (i + 1)
    match att i p with
    | .ok _ => (p :: r.1, r.2.1,
        { current := i + 1, total := total,
          message := savingMsg (i + 1) total } :: r.2.2)
    | .error e => (r.1, saveErrString p.name e :: r.2.1, r.2.2)

/-- The whole persistence pass of `handleSSEImport` over the validated
records. -/
def saveAllSSE (prim : CryptoPrim) (env : Option Str)
    (rnd : Nat → List Nat × List Nat)
    (store : Nat → ImportedPassword → Str → Except Str Unit)
    (passwords : List ImportedPassword) :
    List ImportedPassword × List Str × List SaveEvent :=
  saveLoop (saveAttempt prim env rnd store) passwords.length passwords 0

/-- The stored `Password` row as used by `transformPasswordData`
(identifier, credential fields, owner, timestamps). -/
structure PasswordRec where
  id : Str
  name : Str
  username : Option Str
  email : Option Str
  password : Str
  website : Option Str
  description : Option Str
  userId : Str
  createdAt : Nat
  updatedAt : Nat
deriving DecidableEq

/-- The decryption-cache key `id-updatedAt` (src/lib/file-processor.ts,
line 131). -/
def cacheKey (p : PasswordRec) : Str := p.id ++ "-".data ++ natStr p.updatedAt

def cacheGet (cache : List (Str × Str)) (k : Str) : Option Str :=
  (cache.find? (fun e => e.1 == k)).map (·.2)

def cacheSet (k v : Str) (cache : List (Str × Str)) : List (Str × Str) :=
  if cache.any (fun e => e.1 == k) then
    cache.map (fun e => if e.1 = k then (k, v) else e)
  else cache ++ [(k, v)]

/-- `transformPasswordData` (src/lib/file-processor.ts, lines 127-150):
return the cached plaintext when present; otherwise decrypt, cache a truthy
result, and return the record with the decrypted password or the empty
string. A thrown decryption error (absent master secret) propagates. The
module-global cache is passed and returned explicitly. -/
def transformPasswordData (prim : CryptoPrim) (env : Option Str)
    (cache : List (Str × Str)) (p : PasswordRec) :
    Except Str (PasswordRec × List (Str × Str)) :=
  match cacheGet cache (cacheKey p) with
  | some v => .ok ({ p with password := v }, cache)
  | none =>
    match decrypt prim env p.password with
    | .error e => .error e
    | .ok decryptedPassword =>
      let cache2 :=
        match decryptedPassword with
        | some v => if v = [] then cache else cacheSet (cacheKey p) v cache
        | none => cache
      .ok ({ p with password := decryptedPassword.getD [] }, cache2)
deriving instance DecidableEq for Except

/-- A saving_progress event as built by the save loop. -/
def mkSaveEvent (c total : Nat) : SaveEvent :=
  { current := c, total := total, message := savingMsg c total }

/-- A line of 5999 characters, used to build a concrete 3-chunk input
(chunks are bounded at 6000 characters). -/
def cexLine : Str := List.replicate 5999 'a'

/-- Concrete three-line content splitting into exactly three chunks. -/
def cexContent : Str := cexLine ++ '\n' :: (cexLine ++ '\n' :: cexLine)

/-- A concrete JSON parser accepting exactly the empty array. -/
def cexParse (s : Str) : Option JsonVal :=
  if s = "[]".data then some (.arr []) else none

/-- A model oracle that throws on the second chunk and returns an empty
array for every other chunk. -/
def cexOracle (i : Nat) (_chunk : Str) : Except Str Str :=
  if i = 1 then .error "boom".data else .ok "[]".data

/-- A model oracle that never throws but always answers non-JSON prose. -/
def proseOracle (_i : Nat) (_chunk : Str) : Except Str Str :=
  .ok "no credentials here".data

/-- Candidate record with a password but no name, for the C3 instance. -/
def namelessCandidate : CandidateObj :=
  { name := none, username := none, email := none,
    password := some "abc123".data, website := none, description := none }

def c5rec (j : Nat) : ImportedPassword :=
  { name := "rec".data ++ natStr j, username := none, email := none,
    password := "pw".data, website := none, description := none }

def c5records : List ImportedPassword :=
  [c5rec 0, c5rec 1, c5rec 2, c5rec 3, c5rec 4]

/-- A record store that rejects the third create call and accepts the
rest. -/
def c5store (i : Nat) (_p : ImportedPassword) (_enc : Str) : Except Str Unit :=
  if i = 2 then .error "db down".data else .ok ()

/-- A fixed randomness supply for the per-record encrypt calls. -/
def c5rnd (_i : Nat) : List Nat × List Nat := (List.range 16, List.range 16)

/-- A concrete stored record whose password column does not decrypt. -/
def wRec : PasswordRec :=
  { id := "p1".data, name := "Gmail".data, username := none, email := none,
    password := "zz".data, website := none, description := none,
    userId := "u1".data, createdAt := 0, updatedAt := 0 }
theorem splitOnChar_ne_nil (sep : Char) (l : Str) : splitOnChar sep l ≠ [] := by
  cases l with
  | nil => simp [splitOnChar]
  | cons c rest =>
    simp only [splitOnChar]
    split
    · simp
    · split <;> simp

theorem joinWith_splitOnChar (sep : Char) (l : Str) :
    joinWith sep (splitOnChar sep l) = l := by
  induction l with
  | nil => rfl
  | cons c rest ih =>
    simp only [splitOnChar]
    split
    · rename_i hc
      rcases hs : splitOnChar sep rest with _ | ⟨h, t⟩
      · exact absurd hs (splitOnChar_ne_nil sep rest)
      · rw [hs] at ih
        subst hc
        simpa [joinWith] using ih
    · rename_i hc
      rcases hs : splitOnChar sep rest with _ | ⟨h, t⟩
      · exact absurd hs (splitOnChar_ne_nil sep rest)
      · rw [hs] at ih
        cases t with
        | nil =>
          simp only [joinWith] at ih ⊢
          rw [ih]
        | cons t1 t2 =>
          simp only [joinWith] at ih ⊢
          rw [List.cons_append, ih]

theorem splitOnChar_not_mem (sep : Char) (l : Str) :
    ∀ p ∈ splitOnChar sep l, sep ∉ p := by
  induction l with
  | nil => intro p hp; simp [splitOnChar] at hp; simp [hp]
  | cons c rest ih =>
    intro p hp
    simp only [splitOnChar] at hp
    split at hp
    · rcases List.mem_cons.mp hp with hp1 | hp1
      · simp [hp1]
      · exact ih p hp1
    · rename_i hc
      rcases hs : splitOnChar sep rest with _ | ⟨h, t⟩
      · exact absurd hs (splitOnChar_ne_nil sep rest)
      · rw [hs] at hp
        rcases List.mem_cons.mp hp with hp1 | hp1
        · subst hp1
          have hh := ih h (by rw [hs]; exact List.mem_cons_self _ _)
          intro hmem
          rcases List.mem_cons.mp hmem with h1 | h1
          · exact hc h1.symm
          · exact hh h1
        · exact ih p (by rw [hs]; exact List.mem_cons_of_mem _ hp1)

theorem joinWith_append (sep : Char) (a b : List Str) (ha : a ≠ []) (hb : b ≠ []) :
    joinWith sep (a ++ b) = joinWith sep a ++ sep :: joinWith sep b := by
  induction a with
  | nil => exact absurd rfl ha
  | cons x xs ih =>
    cases xs with
    | nil =>
      cases b with
      | nil => exact absurd rfl hb
      | cons y ys => simp [joinWith]
    | cons x2 xs2 =>
      have hstep := ih (by simp)
      calc joinWith sep (x :: x2 :: xs2 ++ b)
          = x ++ sep :: joinWith sep (x2 :: xs2 ++ b) := rfl
        _ = x ++ sep :: (joinWith sep (x2 :: xs2) ++ sep :: joinWith sep b) := by
            rw [hstep]
        _ = (x ++ sep :: joinWith sep (x2 :: xs2)) ++ sep :: joinWith sep b := by simp
        _ = joinWith sep (x :: x2 :: xs2) ++ sep :: joinWith sep b := rfl

theorem chunkLoop_ne_nil (m : Nat) (lines cur : List Str) (n : Nat) (h : cur ≠ []) :
    chunkLoop m lines cur n ≠ [] := by
  induction lines generalizing cur n with
  | nil => simp [chunkLoop, h]
  | cons line rest ih =>
    simp only [chunkLoop]
    split
    · simp
    · exact ih (cur ++ [line]) _ (by simp)

theorem chunkLoop_join (m : Nat) (lines : List Str) :
    ∀ cur n, cur ≠ [] →
    joinWith '\n' (chunkLoop m lines cur n) = joinWith '\n' (cur ++ lines) := by
  induction lines with
  | nil => intro cur n h; simp [chunkLoop, h, joinWith]
  | cons line rest ih =>
    intro cur n h
    simp only [chunkLoop]
    split
    · have hne := chunkLoop_ne_nil m rest [line] (line.length + 1) (by simp)
      rcases hc : chunkLoop m rest [line] (line.length + 1) with _ | ⟨x, xs⟩
      · exact absurd hc hne
      · have hjoin : joinWith '\n' (joinWith '\n' cur :: x :: xs) =
            joinWith '\n' cur ++ '\n' :: joinWith '\n' (x :: xs) := rfl
        rw [hjoin, ← hc, ih [line] (line.length + 1) (by simp)]
        rw [joinWith_append '\n' cur (line :: rest) h (by simp)]
        rfl
    · rw [ih (cur ++ [line]) _ (by simp), List.append_assoc]
      rfl

theorem joinWith_snoc (sep : Char) (a : List Str) (l : Str) (ha : a ≠ []) :
    joinWith sep (a ++ [l]) = joinWith sep a ++ sep :: l := by
  rw [joinWith_append sep a [l] ha (by simp)]
  rfl

theorem chunkLoop_bound (m : Nat) (lines : List Str) :
    ∀ cur n, (∀ l ∈ lines, '\n' ∉ l) → (∀ l ∈ cur, '\n' ∉ l) →
    (cur = [] → n = 0) →
    (cur ≠ [] → n = (joinWith '\n' cur).length + 1 ∧
      ((joinWith '\n' cur).length ≤ m ∨ ∃ l, cur = [l])) →
    ∀ c ∈ chunkLoop m lines cur n, c.length ≤ m ∨ '\n' ∉ c := by
  induction lines with
  | nil =>
    intro cur n _ hcur _ hinv c hc
    simp only [chunkLoop] at hc
    split at hc
    · simp at hc
    · rename_i hne
      simp at hc
      subst hc
      rcases (hinv hne).2 with hle | ⟨l, hl⟩
      · exact Or.inl hle
      · subst hl
        right
        simpa [joinWith] using hcur l (by simp)
  | cons line rest ih =>
    intro cur n hlines hcur hzero hinv c hc
    simp only [chunkLoop] at hc
    split at hc
    · rename_i hcond
      rcases List.mem_cons.mp hc with hc1 | hc1
      · subst hc1
        rcases (hinv hcond.2).2 with hle | ⟨l, hl⟩
        · exact Or.inl hle
        · subst hl
          right
          simpa [joinWith] using hcur l (by simp)
      · refine ih [line] (line.length + 1) (fun l hl => hlines l (by simp [hl]))
          (fun l hl => by
            rw [List.mem_singleton] at hl
            rw [hl]
            exact hlines line (by simp))
          (by simp) ?_ c hc1
        intro _
        refine ⟨by simp [joinWith], Or.inr ⟨line, rfl⟩⟩
    · rename_i hcond
      rcases eq_or_ne cur [] with hce | hce
      · subst hce
        refine ih [line] _ (fun l hl => hlines l (by simp [hl]))
          (fun l hl => by
            rw [List.mem_singleton] at hl
            rw [hl]
            exact hlines line (by simp))
          (by simp) ?_ c (by simpa [hzero rfl] using hc)
        intro _
        exact ⟨by simp [joinWith], Or.inr ⟨line, rfl⟩⟩
      · have hle : n + line.length + 1 ≤ m := by
          rcases Nat.lt_or_ge m (n + line.length + 1) with h1 | h1
          · exact absurd ⟨h1, hce⟩ hcond
          · exact h1
        have hn := (hinv hce).1
        refine ih (cur ++ [line]) _ (fun l hl => hlines l (by simp [hl]))
          (fun l hl => by
            rcases List.mem_append.mp hl with h1 | h1
            · exact hcur l h1
            · rw [List.mem_singleton] at h1
              rw [h1]
              exact hlines line (by simp))
          (by simp) ?_ c hc
        intro _
        rw [joinWith_snoc '\n' cur line hce]
        constructor
        · simp only [List.length_append, List.length_cons]
          omega
        · left
          simp only [List.length_append, List.length_cons]
          omega
/-- C6: for every input text and positive bound, joining the chunks produced
by `splitTextIntoChunks` with a newline reconstructs the text exactly, and
every chunk is at most `m` characters long except a chunk that is a single
line (contains no newline) longer than `m` — lines are never split. -/
theorem chunker_roundtrip_and_bound (t : Str) (m : Nat) (hm : 0 < m) :
    joinWith '\n' (splitTextIntoChunks t m) = t ∧
    ∀ c ∈ splitTextIntoChunks t m, c.length ≤ m ∨ '\n' ∉ c := by
  constructor
  · unfold splitTextIntoChunks
    rcases hs : splitOnChar '\n' t with _ | ⟨l0, ls⟩
    · exact absurd hs (splitOnChar_ne_nil _ t)
    · have h1 : chunkLoop m (l0 :: ls) [] 0 = chunkLoop m ls [l0] (l0.length + 1) := by
        simp [chunkLoop]
      rw [h1, chunkLoop_join m ls [l0] _ (by simp)]
      have hj := joinWith_splitOnChar '\n' t
      rw [hs] at hj
      simpa using hj
  · intro c hc
    unfold splitTextIntoChunks at hc
    exact chunkLoop_bound m (splitOnChar '\n' t) [] 0
      (splitOnChar_not_mem '\n' t) (by simp) (fun _ => rfl) (fun h => absurd rfl h) c hc

/-- Witness for C6 at a concrete text and bound. -/
theorem chunker_roundtrip_and_bound_witness :
    joinWith '\n' (splitTextIntoChunks "ab\ncd".data 3) = "ab\ncd".data ∧
    ∀ c ∈ splitTextIntoChunks "ab\ncd".data 3, c.length ≤ 3 ∨ '\n' ∉ c :=
  chunker_roundtrip_and_bound "ab\ncd".data 3 (by decide)

/-- C7 counterexample: the chunker applied to the empty string yields one
chunk (the empty string), not zero chunks, because the JavaScript
`"".split("\n")` is `[""]` and the loop then pushes that empty line. -/
theorem chunker_empty_counterexample : splitTextIntoChunks [] 6000 ≠ [] := by decide

/-- C7 amended: the chunker applied to the empty string yields exactly one
chunk, the empty string (for any bound). -/
theorem chunker_empty_one_chunk : ∀ m : Nat, splitTextIntoChunks [] m = [[]] := by
  intro m
  simp [splitTextIntoChunks, splitOnChar, chunkLoop, joinWith]
theorem hexVal_hexDigitChar : ∀ n : Nat, n < 16 → hexVal (hexDigitChar n) = some n := by
  decide

theorem hexDigitChar_ne_colon : ∀ n : Nat, hexDigitChar n ≠ ':' := by
  intro n
  rcases Nat.lt_or_ge n 16 with h | h
  · revert h
    revert n
    decide
  · unfold hexDigitChar
    rw [List.getD_eq_default]
    · decide
    · simpa using h

theorem hexEncode_not_mem_colon (bs : List Nat) : ':' ∉ hexEncode bs := by
  induction bs with
  | nil => simp [hexEncode]
  | cons b rest ih =>
    simp only [hexEncode, List.map_cons, List.flatten] at ih ⊢
    intro hmem
    rcases List.mem_append.mp hmem with h1 | h1
    · simp only [byteToHex, List.mem_cons] at h1
      rcases h1 with h1 | h1 | h1
      · exact hexDigitChar_ne_colon _ h1.symm
      · exact hexDigitChar_ne_colon _ h1.symm
      · simp at h1
    · exact ih h1

theorem hexDecode_hexEncode (bs : List Nat) (hv : ValidBytes bs) :
    hexDecode (hexEncode bs) = bs := by
  induction bs with
  | nil => rfl
  | cons b rest ih =>
    have hb : b < 256 := hv b (by simp)
    have hdiv : b / 16 < 16 := by omega
    have hmod : b % 16 < 16 := by omega
    have hstep : hexEncode (b :: rest) =
        hexDigitChar (b / 16) :: hexDigitChar (b % 16) :: hexEncode rest := rfl
    rw [hstep]
    simp only [hexDecode, hexVal_hexDigitChar _ hdiv, hexVal_hexDigitChar _ hmod]
    rw [ih (fun x hx => hv x (by simp [hx]))]
    congr 1
    omega

theorem hexEncode_inj (a b : List Nat) (ha : ValidBytes a) (hb : ValidBytes b)
    (h : hexEncode a = hexEncode b) : a = b := by
  have := congrArg hexDecode h
  rwa [hexDecode_hexEncode a ha, hexDecode_hexEncode b hb] at this

theorem splitOnChar_no_sep (sep : Char) (a : Str) (h : sep ∉ a) :
    splitOnChar sep a = [a] := by
  induction a with
  | nil => rfl
  | cons c rest ih =>
    simp only [splitOnChar]
    rw [if_neg (fun hc => h (by simp [hc]))]
    rw [ih (fun hc => h (by simp [hc]))]

theorem splitOnChar_append_sep (sep : Char) (a rest : Str) (h : sep ∉ a) :
    splitOnChar sep (a ++ sep :: rest) = a :: splitOnChar sep rest := by
  induction a with
  | nil => simp [splitOnChar]
  | cons c a2 ih =>
    have hne : ¬ c = sep := fun hc => h (by simp [hc])
    have hrec := ih (fun hc => h (by simp [hc]))
    show splitOnChar sep (c :: (a2 ++ sep :: rest)) = (c :: a2) :: splitOnChar sep rest
    simp only [splitOnChar]
    rw [if_neg hne, hrec]

theorem append_sep_inj (sep : Char) (a b x y : Str) (ha : sep ∉ a) (hb : sep ∉ b)
    (h : a ++ sep :: x = b ++ sep :: y) : a = b ∧ x = y := by
  induction a generalizing b with
  | nil =>
    cases b with
    | nil => simpa using h
    | cons c b2 =>
      simp only [List.nil_append, List.cons_append, List.cons.injEq] at h
      exact absurd h.1.symm (fun hc => hb (by simp [hc]))
  | cons c a2 ih =>
    cases b with
    | nil =>
      simp only [List.cons_append, List.nil_append, List.cons.injEq] at h
      exact absurd h.1 (fun hc => ha (by simp [hc]))
    | cons d b2 =>
      simp only [List.cons_append, List.cons.injEq] at h
      obtain ⟨rfl, h2⟩ := h
      have := ih b2 (fun hc => ha (by simp [hc])) (fun hc => hb (by simp [hc])) h2
      exact ⟨by rw [this.1], this.2⟩

theorem token_split (s i c t : List Nat) :
    splitOnChar ':' (hexEncode s ++ ':' :: (hexEncode i ++ ':' ::
      (hexEncode c ++ ':' :: hexEncode t))) =
    [hexEncode s, hexEncode i, hexEncode c, hexEncode t] := by
  rw [splitOnChar_append_sep ':' _ _ (hexEncode_not_mem_colon s),
      splitOnChar_append_sep ':' _ _ (hexEncode_not_mem_colon i),
      splitOnChar_append_sep ':' _ _ (hexEncode_not_mem_colon c),
      splitOnChar_no_sep ':' _ (hexEncode_not_mem_colon t)]

/-- C1: with the master secret present, decrypting an encrypted token
returns the original plaintext, and two encrypt calls on the same plaintext
with distinct fresh 16-byte salts produce different tokens. -/
theorem encrypt_decrypt_roundtrip_and_fresh (prim : CryptoPrim)
    (hgood : GoodPrim prim) (mp : Str) :
    (∀ (salt iv : List Nat) (p t : Str),
      ValidBytes salt → ValidBytes iv →
      encrypt prim (some mp) salt iv p = .ok t →
      decrypt prim (some mp) t = .ok (some p)) ∧
    (∀ (salt1 iv1 salt2 iv2 : List Nat) (p t1 t2 : Str),
      salt1.length = 16 → salt2.length = 16 →
      iv1.length = 16 → iv2.length = 16 →
      ValidBytes salt1 → ValidBytes salt2 → salt1 ≠ salt2 →
      encrypt prim (some mp) salt1 iv1 p = .ok t1 →
      encrypt prim (some mp) salt2 iv2 p = .ok t2 →
      t1 ≠ t2) := by
  constructor
  · intro salt iv p t hs hi henc
    simp only [encrypt] at henc
    rcases hk : prim.kdf mp salt with e | key
    · rw [hk] at henc; exact absurd henc (by simp)
    · rw [hk] at henc
      simp only [Except.ok.injEq] at henc
      subst henc
      simp only [decrypt, token_split]
      rw [if_neg (by simp)]
      simp only [List.getD_cons_zero, List.getD_cons_succ]
      rw [hexDecode_hexEncode salt hs, hexDecode_hexEncode iv hi,
          hexDecode_hexEncode _ (hgood.aead_valid key iv p).1,
          hexDecode_hexEncode _ (hgood.aead_valid key iv p).2, hk]
      exact congrArg Except.ok (hgood.aead_roundtrip key iv p)
  · intro salt1 iv1 salt2 iv2 p t1 t2 _ _ _ _ hv1 hv2 hne henc1 henc2 heq
    simp only [encrypt] at henc1 henc2
    rcases hk1 : prim.kdf mp salt1 with e | key1
    · rw [hk1] at henc1; exact absurd henc1 (by simp)
    rcases hk2 : prim.kdf mp salt2 with e | key2
    · rw [hk2] at henc2; exact absurd henc2 (by simp)
    rw [hk1] at henc1
    rw [hk2] at henc2
    simp only [Except.ok.injEq] at henc1 henc2
    subst henc1
    subst henc2
    have := (append_sep_inj ':' _ _ _ _ (hexEncode_not_mem_colon salt1)
      (hexEncode_not_mem_colon salt2) heq).1
    exact hne (hexEncode_inj salt1 salt2 hv1 hv2 this)
theorem charToNat_lt (c : Char) : c.toNat < 1114112 := by
  rcases c.valid with h | h
  · exact Nat.lt_trans h (by norm_num)
  · exact h.2

theorem strDecBytes_strEncBytes (p : Str) : strDecBytes (strEncBytes p) = p := by
  induction p with
  | nil => rfl
  | cons c s ih =>
    have hstep : strEncBytes (c :: s) =
        c.toNat / 65536 :: c.toNat / 256 % 256 :: c.toNat % 256 :: strEncBytes s := rfl
    rw [hstep]
    simp only [strDecBytes, ih]
    congr 1
    have harith : c.toNat / 65536 * 65536 + c.toNat / 256 % 256 * 256 + c.toNat % 256 =
        c.toNat := by omega
    rw [harith, Char.ofNat_toNat]

theorem toyGood : GoodPrim toyPrim := by
  constructor
  · intro k iv p
    simp only [toyPrim, if_pos rfl]
    rw [strDecBytes_strEncBytes]
    simp
  · intro k iv p
    constructor
    · intro b hb
      simp only [toyPrim, strEncBytes, List.mem_flatten, List.mem_map] at hb
      obtain ⟨l, ⟨c, _, rfl⟩, hbl⟩ := hb
      have := charToNat_lt c
      simp only [charEncBytes, List.mem_cons] at hbl
      rcases hbl with rfl | rfl | rfl | h
      · omega
      · omega
      · omega
      · simp at h
    · intro b hb
      simp only [toyPrim, toyTag, List.mem_map] at hb
      obtain ⟨a, _, rfl⟩ := hb
      omega

/-- C2: with the master secret present, `decrypt` never throws, and every
failure path — wrong colon-field count, key-derivation failure, or
authentication-tag verification failure — yields `null` (here `none`). -/
theorem decrypt_failure_semantics (prim : CryptoPrim) (mp : Str)
    (encryptedString : Str) :
    (∃ r, decrypt prim (some mp) encryptedString = .ok r) ∧
    ((splitOnChar ':' encryptedString).length ≠ 4 →
      decrypt prim (some mp) encryptedString = .ok none) ∧
    (∀ e, (splitOnChar ':' encryptedString).length = 4 →
      prim.kdf mp (hexDecode ((splitOnChar ':' encryptedString).getD 0 [])) =
        .error e →
      decrypt prim (some mp) encryptedString = .ok none) ∧
    (∀ key, (splitOnChar ':' encryptedString).length = 4 →
      prim.kdf mp (hexDecode ((splitOnChar ':' encryptedString).getD 0 [])) =
        .ok key →
      prim.aeadDec key (hexDecode ((splitOnChar ':' encryptedString).getD 1 []))
        (hexDecode ((splitOnChar ':' encryptedString).getD 2 []))
        (hexDecode ((splitOnChar ':' encryptedString).getD 3 [])) = none →
      decrypt prim (some mp) encryptedString = .ok none) := by
  refine ⟨?_, ?_, ?_, ?_⟩
  · simp only [decrypt]
    split
    · exact ⟨none, rfl⟩
    · rcases hk : prim.kdf mp (hexDecode ((splitOnChar ':' encryptedString).getD 0 [])) with e | key
      · exact ⟨none, rfl⟩
      · exact ⟨_, rfl⟩
  · intro hlen
    simp only [decrypt]
    rw [if_pos hlen]
  · intro e hlen hk
    simp only [decrypt]
    rw [if_neg (by simp [hlen]), hk]
  · intro key hlen hk hdec
    simp only [decrypt]
    rw [if_neg (by simp [hlen]), hk]
    exact congrArg Except.ok hdec

/-- Witness for C2: a malformed two-field token and a well-formed token with
a failing tag both decrypt to `null` under the toy primitives. -/
theorem decrypt_failure_semantics_witness :
    decrypt toyPrim (some "m".data) "zz".data = .ok none ∧
    decrypt toyPrim (some "m".data) "aa:bb:cc:dd".data = .ok none := by
  constructor
  · exact (decrypt_failure_semantics toyPrim "m".data "zz".data).2.1 (by decide)
  · exact (decrypt_failure_semantics toyPrim "m".data "aa:bb:cc:dd".data).2.2.2
      [0, 0, 109, 170] (by decide) rfl rfl

/-- Witness for C1: a concrete round trip under the toy primitives, and two
concrete encryptions of the same plaintext with different salts yielding
different tokens. -/
theorem encrypt_decrypt_roundtrip_and_fresh_witness :
    decrypt toyPrim (some "m".data)
      ((encrypt toyPrim (some "m".data) (List.range 16) (List.range 16)
        "pw".data).toOption.getD []) = .ok (some "pw".data) ∧
    (encrypt toyPrim (some "m".data) (List.range 16) (List.range 16)
        "pw".data).toOption.getD [] ≠
      (encrypt toyPrim (some "m".data) ((List.range 16).map (· + 1))
        (List.range 16) "pw".data).toOption.getD [] := by
  have h := encrypt_decrypt_roundtrip_and_fresh toyPrim toyGood "m".data
  constructor
  · exact h.1 (List.range 16) (List.range 16) "pw".data _
      (by decide) (by decide) rfl
  · exact h.2 (List.range 16) (List.range 16) ((List.range 16).map (· + 1))
      (List.range 16) "pw".data _ _ (by decide) (by decide) (by decide) (by decide)
      (by decide) (by decide) (by decide) rfl rfl
/-- C3 counterexample: in the AI-extraction path a candidate with a
non-empty password and no name is NOT dropped — it is kept with the
defaulted name "Unknown Service" (src/unnamed/part_000, line 226). -/
theorem ai_nameless_kept_counterexample :
    validateAIItems [JsonItem.obj namelessCandidate] =
      [{ name := "Unknown Service".data, username := none, email := none,
         password := "abc123".data, website := none, description := none }] := by
  decide

/-- C3 amended: in the AI-extraction path the name field IS defaulted, just
as in CSV header-mapping: a candidate object with a truthy password and a
missing or empty name is kept in the validated output with the name
"Unknown Service". -/
theorem ai_name_defaulted (o : CandidateObj) (pw : Str)
    (hpw : o.password = some pw) (hne : pw ≠ [])
    (hname : o.name = none ∨ o.name = some []) :
    validateAIItems [JsonItem.obj o] =
      [{ name := "Unknown Service".data, username := jsOrUndef o.username,
         email := jsOrUndef o.email, password := pw,
         website := jsOrUndef o.website,
         description := jsOrUndef o.description }] := by
  have hnm : jsOr o.name "Unknown Service".data = "Unknown Service".data := by
    rcases hname with h | h <;> simp [jsOr, h]
  have hpw2 : jsOr o.password [] = pw := by
    simp [jsOr, hpw, hne]
  have hpe : pw.isEmpty = false := by simpa [List.isEmpty_iff] using hne
  simp [validateAIItems, toImported, hnm, hpw2, List.filter, hpe]

/-- Witness for the amended C3 at a concrete candidate. -/
theorem ai_name_defaulted_witness :
    validateAIItems [JsonItem.obj namelessCandidate] =
      [{ name := "Unknown Service".data, username := jsOrUndef none,
         email := jsOrUndef none, password := "abc123".data,
         website := jsOrUndef none, description := jsOrUndef none }] :=
  ai_name_defaulted namelessCandidate "abc123".data rfl (by decide) (Or.inl rfl)

/-- C8 counterexample: on the given CSV the parser does NOT return just the
Gmail and Yahoo records — the blank-name data row is kept too. -/
theorem csv_blank_name_counterexample :
    processCSVContent "name,password\nGmail,abc123\n,missing\nYahoo,xyz789".data ≠
      .ok [⟨"Gmail".data, none, none, "abc123".data, none, none⟩,
           ⟨"Yahoo".data, none, none, "xyz789".data, none, none⟩] := by
  decide

/-- C8 amended: on the given CSV the parser yields exactly three records:
the blank-name row is kept with the defaulted name "Unknown Service". -/
theorem csv_blank_name_defaulted :
    processCSVContent "name,password\nGmail,abc123\n,missing\nYahoo,xyz789".data =
      .ok [⟨"Gmail".data, none, none, "abc123".data, none, none⟩,
           ⟨"Unknown Service".data, none, none, "missing".data, none, none⟩,
           ⟨"Yahoo".data, none, none, "xyz789".data, none, none⟩] := by
  decide

/-- C5 counterexample: in a batch of five records where the store rejects
the third, the persister saves four records and accumulates one error
naming the rejected record — but emits only FOUR saving_progress events
(current values 1,2,4,5), not one after every attempt. -/
theorem persister_skipped_event_counterexample :
    (saveAllSSE toyPrim (some "m".data) c5rnd c5store c5records).1.length = 4 ∧
    (saveAllSSE toyPrim (some "m".data) c5rnd c5store c5records).2.1 =
      [saveErrString (c5rec 2).name "db down".data] ∧
    (saveAllSSE toyPrim (some "m".data) c5rnd c5store c5records).2.2.map
      (fun ev => ev.current) = [1, 2, 4, 5] ∧
    (saveAllSSE toyPrim (some "m".data) c5rnd c5store c5records).2.2.map
      (fun ev => ev.current) ≠ [1, 2, 3, 4, 5] := by
  refine ⟨by decide, by decide, by decide, by decide⟩
theorem decrypt_some_isOk (prim : CryptoPrim) (mp s : Str) :
    ∃ r, decrypt prim (some mp) s = .ok r := by
  simp only [decrypt]
  split
  · exact ⟨none, rfl⟩
  · rcases hk : prim.kdf mp (hexDecode ((splitOnChar ':' s).getD 0 [])) with e | key
    · exact ⟨none, rfl⟩
    · exact ⟨_, rfl⟩

/-- C10: `transformPasswordData` keeps every field but the password
unchanged and replaces the password with the decrypted plaintext, or with
the empty string when decryption returns null — with the master secret
present (and any cache entry agreeing with decryption), a decryption
failure is returned as an empty-string password, never as an exception or
null. -/
theorem transformPasswordData_frame (prim : CryptoPrim) (mp : Str)
    (cache : List (Str × Str)) (p : PasswordRec)
    (hcache : ∀ v, cacheGet cache (cacheKey p) = some v →
      decrypt prim (some mp) p.password = .ok (some v)) :
    ∃ d cache2, decrypt prim (some mp) p.password = .ok d ∧
      transformPasswordData prim (some mp) cache p =
        .ok ({ p with password := d.getD [] }, cache2) := by
  rcases hg : cacheGet cache (cacheKey p) with _ | v
  · obtain ⟨r, hr⟩ := decrypt_some_isOk prim mp p.password
    refine ⟨r, (match r with
      | some v => if v = [] then cache else cacheSet (cacheKey p) v cache
      | none => cache), hr, ?_⟩
    simp only [transformPasswordData, hg, hr]
    cases r <;> rfl
  · refine ⟨some v, cache, hcache v hg, ?_⟩
    simp only [transformPasswordData, hg, Option.getD]

/-- Witness for C10: a record whose stored password does not decrypt comes
back unchanged except for an empty-string password. -/
theorem transformPasswordData_frame_witness :
    (transformPasswordData toyPrim (some "m".data) [] wRec).toOption.map Prod.fst =
      some { wRec with password := [] } := by
  obtain ⟨d, cache2, hd, ht⟩ := transformPasswordData_frame toyPrim "m".data [] wRec
    (by intro v hv; simp [cacheGet] at hv)
  have hd0 : decrypt toyPrim (some "m".data) wRec.password = .ok none := by decide
  rw [hd0] at hd
  have hdn : d = none := (Except.ok.inj hd).symm
  subst hdn
  rw [ht]
  rfl

/-- C9: `importPasswords` always returns an ImportResult (it is total);
when the dispatched processing throws — the AI path fails for a
text/image/pdf source, or the file type is unsupported — the result has no
passwords, zero totals, errorCount 1, and the thrown message as the single
error. (A CSV-source AI failure is swallowed and contributes no error.) -/
theorem importPasswords_error_result (parseJson : Str → Option JsonVal)
    (oracle : Nat → Str → Except Str Str) (fileContent fileType : Str) :
    ((fileType = "text".data ∨ fileType = "image".data ∨ fileType = "pdf".data) →
      ∀ e, (processContentWithAI parseJson oracle fileContent).2 = .error e →
      (importPasswords parseJson oracle fileContent fileType).1 =
        { passwords := [], totalProcessed := 0, successCount := 0,
          errorCount := 1, errors := [e] }) ∧
    (fileType ≠ "csv".data → fileType ≠ "text".data → fileType ≠ "image".data →
      fileType ≠ "pdf".data →
      (importPasswords parseJson oracle fileContent fileType).1 =
        { passwords := [], totalProcessed := 0, successCount := 0,
          errorCount := 1,
          errors := ["Unsupported file type: ".data ++ fileType] }) := by
  constructor
  · intro hft e he
    have hcsv : fileType ≠ "csv".data := by
      rcases hft with h | h | h <;> subst h <;> decide
    simp only [importPasswords, if_neg hcsv, if_pos hft, he]
  · intro h1 h2 h3 h4
    simp only [importPasswords, if_neg h1]
    rw [if_neg (by simp [h2, h3, h4])]

/-- Witness for C9: a throwing AI path on a text source, and an
unsupported file type. -/
theorem importPasswords_error_result_witness :
    (importPasswords cexParse (fun _ _ => Except.error "x".data)
      "a".data "text".data).1 =
      { passwords := [], totalProcessed := 0, successCount := 0,
        errorCount := 1,
        errors := ["Failed to process content with AI: x".data] } ∧
    (importPasswords cexParse (fun _ _ => Except.error "x".data)
      "a".data "xml".data).1 =
      { passwords := [], totalProcessed := 0, successCount := 0,
        errorCount := 1, errors := ["Unsupported file type: xml".data] } := by
  constructor
  · exact (importPasswords_error_result cexParse _ "a".data "text".data).1
      (Or.inl rfl) "Failed to process content with AI: x".data (by decide)
  · exact (importPasswords_error_result cexParse _ "a".data "xml".data).2
      (by decide) (by decide) (by decide) (by decide)
theorem cexLine_not_nl : '\n' ∉ cexLine := by
  intro h
  rw [cexLine, List.mem_replicate] at h
  exact absurd h.2 (by decide)

theorem cexLine_length : cexLine.length = 5999 := by
  rw [cexLine, List.length_replicate]

theorem cexLine_ne_nil : ¬ cexLine = [] := by
  intro h
  have := congrArg List.length h
  rw [cexLine_length] at this
  simp at this

theorem cex_chunks : splitTextIntoChunks cexContent 6000 = [cexLine, cexLine, cexLine] := by
  have hsplit : splitOnChar '\n' cexContent = [cexLine, cexLine, cexLine] := by
    rw [cexContent, splitOnChar_append_sep _ _ _ cexLine_not_nl,
        splitOnChar_append_sep _ _ _ cexLine_not_nl,
        splitOnChar_no_sep _ _ cexLine_not_nl]
  rw [splitTextIntoChunks, hsplit]
  norm_num [chunkLoop, cexLine_length, joinWith]
theorem processContentWithAI_of_loop_error (pj : Str → Option JsonVal)
    (o : Nat → Str → Except Str Str) (content e : Str)
    (evs : List ImportProgress)
    (h : processLoop pj o (splitTextIntoChunks content 6000).length
      (splitTextIntoChunks content 6000) 0 [] = (evs, .error e)) :
    processContentWithAI pj o content =
      ({ currentChunk := 0, totalChunks := (splitTextIntoChunks content 6000).length,
         currentChunkSize := 0, totalProcessed := 0, status := .processing,
         message := startingMsg (splitTextIntoChunks content 6000).length } ::
       evs ++
       [{ currentChunk := 0, totalChunks := 0, currentChunkSize := 0,
          totalProcessed := 0, status := .error, message := aiFailedMsg e }],
       .error (aiThrownMsg e)) := by
  simp only [processContentWithAI, h]

/-- C4 counterexample: in a three-chunk run where the model call for the
second chunk throws, the run IS aborted: `processContentWithAI` rethrows
the failure (the model call sits inside the function-wide try, not a
per-chunk one), no progress event is emitted for the third chunk, and no
success is produced. The emitted events carry currentChunk values
0 (initial), 1 (pre chunk 1), 1 (post chunk 1), 2 (pre of the throwing
chunk 2), 0 (error). -/
theorem ai_chunk_throw_aborts_counterexample :
    (processContentWithAI cexParse cexOracle cexContent).2 =
      .error "Failed to process content with AI: boom".data ∧
    (processContentWithAI cexParse cexOracle cexContent).1.map
      (fun ev => ev.currentChunk) = [0, 1, 1, 2, 0] := by
  have h0 : cexOracle 0 cexLine = .ok "[]".data := rfl
  have h1 : cexOracle 1 cexLine = .error "boom".data := rfl
  have hext : extractFromResponse cexParse (jsTrim "[]".data) = some [] := rfl
  have hloop : processLoop cexParse cexOracle 3 [cexLine, cexLine, cexLine] 0 [] =
      ([{ currentChunk := 1, totalChunks := 3, currentChunkSize := cexLine.length,
          totalProcessed := 0, status := .processing,
          message := processingMsg 0 3 cexLine.length },
        { currentChunk := 1, totalChunks := 3, currentChunkSize := cexLine.length,
          totalProcessed := 0, status := .processing,
          message := completedChunkMsg 0 3 0 },
        { currentChunk := 2, totalChunks := 3, currentChunkSize := cexLine.length,
          totalProcessed := 0, status := .processing,
          message := processingMsg 1 3 cexLine.length }],
       .error "boom".data) := by
    simp only [processLoop, if_neg cexLine_ne_nil, h0, h1, hext,
      List.nil_append, List.length_nil]
  have htop := processContentWithAI_of_loop_error cexParse cexOracle cexContent
    "boom".data _ (by
      rw [cex_chunks]
      exact hloop)
  rw [htop]
  constructor
  · rfl
  · simp
theorem processLoop_ok_yield (pj : Str → Option JsonVal)
    (o : Nat → Str → Except Str Str) (total : Nat)
    (hok : ∀ i c, ∃ r, o i c = .ok r) :
    ∀ (cs : List Str) (i : Nat) (acc : List ImportedPassword),
    (processLoop pj o total cs i acc).2 = .ok (acc ++ chunksYield pj o cs i) := by
  intro cs
  induction cs with
  | nil => intro i acc; simp [processLoop, chunksYield]
  | cons c rest ih =>
    intro i acc
    by_cases hc : c = []
    · simp [processLoop, hc, chunksYield, chunkYield, ih]
    · obtain ⟨r, hr⟩ := hok i c
      simp only [processLoop, if_neg hc, hr]
      cases hext : extractFromResponse pj (jsTrim r) with
      | none => simp [ih, chunksYield, chunkYield, hc, hr, hext]
      | some v => simp [ih, chunksYield, chunkYield, hc, hr, hext]

theorem processLoop_events (pj : Str → Option JsonVal)
    (o : Nat → Str → Except Str Str) (total : Nat)
    (hok : ∀ i c, ∃ r, o i c = .ok r) :
    ∀ (cs : List Str) (i : Nat) (acc : List ImportedPassword) (k : Nat),
    k < cs.length → cs.getD k [] ≠ [] →
    ∃ ev ∈ (processLoop pj o total cs i acc).1,
      ev.currentChunk = i + k + 1 ∧ ev.status = .processing := by
  intro cs
  induction cs with
  | nil => intro i acc k hk; simp at hk
  | cons c rest ih =>
    intro i acc k hk hne
    cases k with
    | zero =>
      have hc : ¬ c = [] := by simpa using hne
      obtain ⟨r, hr⟩ := hok i c
      simp only [processLoop, if_neg hc, hr]
      cases hext : extractFromResponse pj (jsTrim r) with
      | none =>
        exact ⟨⟨i + 1, total, c.length, acc.length, .processing,
          processingMsg i total c.length⟩, by simp, rfl, rfl⟩
      | some v =>
        exact ⟨⟨i + 1, total, c.length, acc.length, .processing,
          processingMsg i total c.length⟩, by simp, rfl, rfl⟩
    | succ k2 =>
      have hk2 : k2 < rest.length := by simpa using hk
      have hne2 : rest.getD k2 [] ≠ [] := by simpa using hne
      by_cases hc : c = []
      · obtain ⟨ev, hmem, h1, h2⟩ := ih (i + 1) acc k2 hk2 hne2
        refine ⟨ev, ?_, by omega, h2⟩
        simpa [processLoop, hc] using hmem
      · obtain ⟨r, hr⟩ := hok i c
        simp only [processLoop, if_neg hc, hr]
        cases hext : extractFromResponse pj (jsTrim r) with
        | none =>
          obtain ⟨ev, hmem, h1, h2⟩ := ih (i + 1) acc k2 hk2 hne2
          exact ⟨ev, by simp [hmem], by omega, h2⟩
        | some v =>
          obtain ⟨ev, hmem, h1, h2⟩ := ih (i + 1) (acc ++ v) k2 hk2 hne2
          exact ⟨ev, by simp [hmem], by omega, h2⟩

/-- C4 amended: a per-chunk extraction failure at the parse level (no JSON
array found, unparseable JSON, or a non-array) never aborts the run — when
no model call throws, the run completes successfully with the concatenated
per-chunk yields (parse-failed chunks contributing zero records), and a
processing progress event is emitted for every non-empty chunk. A model
call that throws, however, aborts the whole run (see the counterexample). -/
theorem ai_parse_failures_do_not_abort (pj : Str → Option JsonVal)
    (o : Nat → Str → Except Str Str) (content : Str)
    (hok : ∀ i c, ∃ r, o i c = .ok r) :
    (processContentWithAI pj o content).2 =
      .ok (chunksYield pj o (splitTextIntoChunks content 6000) 0) ∧
    ∀ k, k < (splitTextIntoChunks content 6000).length →
      (splitTextIntoChunks content 6000).getD k [] ≠ [] →
      ∃ ev ∈ (processContentWithAI pj o content).1,
        ev.currentChunk = k + 1 ∧ ev.status = .processing := by
  have hloop := processLoop_ok_yield pj o (splitTextIntoChunks content 6000).length
    hok (splitTextIntoChunks content 6000) 0 []
  constructor
  · simp only [processContentWithAI]
    rcases hr : processLoop pj o (splitTextIntoChunks content 6000).length
        (splitTextIntoChunks content 6000) 0 [] with ⟨evs, r2⟩
    rw [hr] at hloop
    simp only at hloop
    subst hloop
    simp
  · intro k hk hne
    obtain ⟨ev, hmem, h1, h2⟩ := processLoop_events pj o
      (splitTextIntoChunks content 6000).length hok
      (splitTextIntoChunks content 6000) 0 [] k hk hne
    refine ⟨ev, ?_, by omega, h2⟩
    simp only [processContentWithAI]
    rcases hr : processLoop pj o (splitTextIntoChunks content 6000).length
        (splitTextIntoChunks content 6000) 0 [] with ⟨evs, r2⟩
    rw [hr] at hloop hmem
    simp only at hloop
    subst hloop
    simp [hmem]

/-- Witness for the amended C4: a run whose model answers are prose (never
JSON) still completes successfully. -/
theorem ai_parse_failures_do_not_abort_witness :
    (processContentWithAI cexParse proseOracle "hello".data).2 =
      .ok (chunksYield cexParse proseOracle
        (splitTextIntoChunks "hello".data 6000) 0) :=
  (ai_parse_failures_do_not_abort cexParse proseOracle "hello".data
    (fun _ _ => ⟨"no credentials here".data, rfl⟩)).1
theorem saveLoop_all_ok (att : Nat → ImportedPassword → Except Str Unit)
    (total : Nat) :
    ∀ (ps : List ImportedPassword) (i : Nat),
    (∀ j, j < ps.length → att (i + j) (ps.getD j default) = .ok ()) →
    saveLoop att total ps i =
      (ps, [], (List.range ps.length).map (fun j => mkSaveEvent (i + j + 1) total)) := by
  intro ps
  induction ps with
  | nil => intro i _; rfl
  | cons p rest ih =>
    intro i hok
    have h0 : att i p = .ok () := by simpa using hok 0 (by simp)
    have hrest := ih (i + 1) (fun j hj => by
      have := hok (j + 1) (by simpa using Nat.succ_lt_succ hj)
      simpa [Nat.add_assoc, Nat.add_comm 1 j] using this)
    simp only [saveLoop, hrest, h0]
    congr 1
    congr 1
    rw [List.length_cons, List.range_succ_eq_map, List.map_cons, List.map_map]
    refine congrArg₂ _ rfl ?_
    refine List.map_congr_left ?_
    intro j _
    simp only [Function.comp_apply, Nat.succ_eq_add_one]
    congr 1
    omega

theorem saveLoop_one_fail (att : Nat → ImportedPassword → Except Str Unit)
    (total : Nat) (msg : Str) :
    ∀ (ps : List ImportedPassword) (i k : Nat), k < ps.length →
    att (i + k) (ps.getD k default) = .error msg →
    (∀ j, j < ps.length → j ≠ k → att (i + j) (ps.getD j default) = .ok ()) →
    saveLoop att total ps i =
      (ps.eraseIdx k,
       [saveErrString (ps.getD k default).name msg],
       ((List.range ps.length).filter (fun j => j != k)).map
         (fun j => mkSaveEvent (i + j + 1) total)) := by
  intro ps
  induction ps with
  | nil => intro i k hk; simp at hk
  | cons p rest ih =>
    intro i k hk hfail hok
    cases k with
    | zero =>
      have hf : att i p = .error msg := by simpa using hfail
      have hall := saveLoop_all_ok att total rest (i + 1) (fun j hj => by
        have := hok (j + 1) (by simpa using Nat.succ_lt_succ hj) (by simp)
        simpa [Nat.add_assoc, Nat.add_comm 1 j] using this)
      simp only [saveLoop, hall, hf]
      congr 1
      congr 1
      rw [List.length_cons, List.range_succ_eq_map, List.filter_cons]
      simp only [bne_self_eq_false, Bool.false_eq_true, if_false]
      rw [List.filter_map]
      have hfil : (List.range rest.length).filter ((fun j => j != 0) ∘ Nat.succ) =
          List.range rest.length := by
        refine List.filter_eq_self.mpr ?_
        intro a _
        simp [Function.comp]
      rw [hfil, List.map_map]
      refine List.map_congr_left ?_
      intro j _
      simp only [Function.comp_apply, Nat.succ_eq_add_one]
      congr 1
      omega
    | succ k2 =>
      have h0 : att i p = .ok () := by
        simpa using hok 0 (by simp) (by simp)
      have hrec := ih (i + 1) k2 (by simpa using hk)
        (by
          have := hfail
          simpa [Nat.add_assoc, Nat.add_comm 1 k2] using this)
        (fun j hj hne => by
          have := hok (j + 1) (by simpa using Nat.succ_lt_succ hj) (by simpa using hne)
          simpa [Nat.add_assoc, Nat.add_comm 1 j] using this)
      simp only [saveLoop, hrec, h0]
      congr 1
      congr 1
      rw [List.length_cons, List.range_succ_eq_map, List.filter_cons]
      have h0k : ((0 : Nat) != k2 + 1) = true := by simp
      rw [if_pos h0k, List.map_cons]
      refine congrArg₂ _ rfl ?_
      rw [List.filter_map]
      have hfil : (List.range rest.length).filter ((fun j => j != k2 + 1) ∘ Nat.succ) =
          (List.range rest.length).filter (fun j => j != k2) := by
        refine List.filter_congr ?_
        intro a _
        simp [Function.comp]
      rw [hfil, List.map_map]
      refine List.map_congr_left ?_
      intro j _
      simp only [Function.comp_apply, Nat.succ_eq_add_one]
      congr 1
      omega

/-- C5 amended: for a batch of N records where the per-record save attempt
fails for exactly one index k (the store rejects record k+1), the persister
saves the other N-1 records in order, accumulates exactly one error string
naming the rejected record — but emits a saving_progress event only after
each SUCCESSFUL attempt: the current values are 1..N with k+1 skipped, not
all of 1..N. -/
theorem persister_partial_failure (prim : CryptoPrim) (env : Option Str)
    (rnd : Nat → List Nat × List Nat)
    (store : Nat → ImportedPassword → Str → Except Str Unit)
    (pwds : List ImportedPassword) (k : Nat) (msg : Str)
    (hk : k < pwds.length)
    (hfail : saveAttempt prim env rnd store k (pwds.getD k default) = .error msg)
    (hsucc : ∀ j, j < pwds.length → j ≠ k →
      saveAttempt prim env rnd store j (pwds.getD j default) = .ok ()) :
    saveAllSSE prim env rnd store pwds =
      (pwds.eraseIdx k,
       [saveErrString (pwds.getD k default).name msg],
       ((List.range pwds.length).filter (fun j => j != k)).map
         (fun j => mkSaveEvent (j + 1) pwds.length)) := by
  have h := saveLoop_one_fail (saveAttempt prim env rnd store) pwds.length msg
    pwds 0 k hk (by simpa using hfail)
    (fun j hj hne => by simpa using hsucc j hj hne)
  rw [saveAllSSE, h]
  congr 1
  congr 1
  refine List.map_congr_left ?_
  intro j _
  congr 1
  omega

/-- Witness for the amended C5 at the concrete five-record batch whose
third record is rejected by the store. -/
theorem persister_partial_failure_witness :
    saveAllSSE toyPrim (some "m".data) c5rnd c5store c5records =
      (c5records.eraseIdx 2,
       [saveErrString (c5records.getD 2 default).name "db down".data],
       ((List.range c5records.length).filter (fun j => j != 2)).map
         (fun j => mkSaveEvent (j + 1) c5records.length)) :=
  persister_partial_failure toyPrim (some "m".data) c5rnd c5store c5records 2
    "db down".data (by decide) (by decide)
    (by decide)
